import Mathlib

/-!
Verification of the Forge hook/guard evaluation core.

The repository ships the guard scripts' pytest suites; the guard scripts
themselves (bash hooks under forge-plugin/hooks/) are not part of the
source snapshot.  Each guard is therefore modelled from the specification
document, and every such definition carries a doc comment naming the
script it stands for.
-/

namespace Forge

/-! ## Core decision types -/

/-- Verdict of a single guard invocation: allow (silent), deny with a
reason, or warn with an additional-context message. -/
inductive Verdict where
  | allow : Verdict
  | deny : String → Verdict
  | warn : String → Verdict
deriving DecidableEq, Repr

/-- The JSON object a hook may print on stdout: a structural deny
payload (hookSpecificOutput.permissionDecision = deny) or a warning
payload (additionalContext). -/
inductive HookPayload where
  | denyOut : String → HookPayload
  | warnOut : String → HookPayload
deriving DecidableEq, Repr

/-- Result of one guard process invocation: the process exit code and
the optional single JSON object written to stdout. -/
structure ProcResult where
  exitCode : Nat
  stdout : Option HookPayload
deriving DecidableEq, Repr

/-- Modelled from the spec: the DecisionEmitter serializes a verdict to
the calling convention.  Allow is empty stdout, deny and warn are JSON
payloads, and the exit code is always 0. -/
def emitDecision (v : Verdict) : ProcResult :=
  match v with
  | .allow => ⟨0, none⟩
  | .deny r => ⟨0, some (.denyOut r)⟩
  | .warn m => ⟨0, some (.warnOut m)⟩

/-- The decoded hook event: tool name plus the tool-input fields the
guards consume.  Absent fields decode to the empty string / none. -/
structure HookEvent where
  toolName : String
  command : String
  filePath : Option String
  cwd : String
deriving DecidableEq, Repr

/-! ## String helpers -/

/-- The string s contains sub as a contiguous substring. -/
def strMentions (s sub : String) : Prop :=
  ∃ pre post : String, s = pre ++ sub ++ post

/-- Kernel-friendly character-level string utilities.  The guards treat
commands, paths and prompts as flat text scanned by patterns; these
helpers mirror that over the underlying character list. -/
def strStartsWith (s pre : String) : Bool := pre.data.isPrefixOf s.data

def strEndsWith (s post : String) : Bool := post.data.isSuffixOf s.data

def strToLower (s : String) : String := String.mk (s.data.map Char.toLower)

def strDropN (s : String) (n : Nat) : String := String.mk (s.data.drop n)

/-- Split a character list at every occurrence of the separator. -/
def splitCharAux (sep : Char) : List Char → List Char → List (List Char)
  | [], acc => [acc.reverse]
  | c :: cs, acc =>
    if c = sep then acc.reverse :: splitCharAux sep cs []
    else splitCharAux sep cs (c :: acc)

/-- Split a string at every occurrence of the separator character. -/
def splitChar (sep : Char) (s : String) : List String :=
  (splitCharAux sep s.data []).map String.mk

/-- The whitespace-separated tokens of a command string. -/
def tokensOf (s : String) : List String :=
  (splitChar ' ' s).filter (fun t => t ≠ "")

/-- The suffix of cs just after the first occurrence of the pattern, if
the pattern occurs in cs at all. -/
def afterSub (pat : List Char) : List Char → Option (List Char)
  | [] => if pat.isPrefixOf ([] : List Char) then some [] else none
  | c :: rest =>
    if pat.isPrefixOf (c :: rest) then some (List.drop pat.length (c :: rest))
    else afterSub pat rest

/-- Boolean substring test over the character lists. -/
def strContainsB (s sub : String) : Bool := (afterSub sub.data s.data).isSome

/-- Final path component (text after the last slash). -/
def basename (p : String) : String := (splitChar '/' p).getLastD ""

/-! ## HealthBuffer (lib/health_buffer.sh) -/

/-- The 200-entry safety cap of the health buffer. -/
def healthBufferMax : Nat := 200

/-- One stored buffer line: a bracketed ISO-8601 timestamp followed by
the message. -/
def mkEntry (ts msg : String) : String := "[" ++ ts ++ "] " ++ msg

/-- Modelled from the spec: health_buffer_append (lib/health_buffer.sh,
absent from the snapshot) timestamps and appends one line; empty
messages are ignored and appends past the 200-line cap are silent
no-ops (no eviction). -/
def health_buffer_append (ts msg : String) (buf : List String) : List String :=
  if msg = "" then buf
  else if healthBufferMax ≤ buf.length then buf
  else buf ++ [mkEntry ts msg]

/-- Modelled from the spec: health_buffer_flush returns and clears all
buffered lines; flushing an empty buffer signals emptiness (none)
without modifying anything. -/
def health_buffer_flush (buf : List String) : Option (List String) × List String :=
  if buf = [] then (none, buf) else (some buf, [])

/-- Run a whole sequence of appends, oldest first. -/
def appendAll (buf : List String) (msgs : List (String × String)) : List String :=
  msgs.foldl (fun b p => health_buffer_append p.1 p.2 b) buf

/-! ## Memory freshness guard (memory_freshness_enforcer.sh) -/

/-- Freshness band of a memory file by the age of its line-1 timestamp. -/
inductive Freshness where
  | fresh : Freshness
  | aging : Freshness
  | stale : Freshness
deriving DecidableEq, Repr

/-- Modelled from the spec: ageDays ≤ 30 is fresh, 31–89 is aging,
90 and beyond is stale. -/
def classifyAge (a : Nat) : Freshness :=
  if a ≤ 30 then .fresh else if a ≤ 89 then .aging else .stale

/-- Deny reason for a stale memory file; contains the word stale and the
numeric age. -/
def staleReason (a : Nat) : String :=
  "Memory file is " ++ "stale" ++ (": last updated " ++ toString a ++ " days ago")

/-- Deferred HealthBuffer warning queued for an aging memory file. -/
def agingWarnMsg (a : Nat) : String :=
  "Memory file is aging (" ++ toString a ++ " days old)"

/-- Operational memory files exempt from freshness and pruning checks. -/
def operationalMemoryFiles : List String :=
  ["index.md", "lifecycle.md", "quality_guidance.md", "sync_log.md"]

/-- Modelled from the spec: the freshness decision for a non-operational
memory file whose line-1 timestamp is a days old.  Returns the verdict
and the optional deferred HealthBuffer message (aging band only). -/
def freshnessDecision (a : Nat) : Verdict × Option String :=
  match classifyAge a with
  | .fresh => (.allow, none)
  | .aging => (.allow, some (agingWarnMsg a))
  | .stale => (.deny (staleReason a), none)

/-- Deny reason for a memory file with no parseable line-1 timestamp. -/
def ghostReason : String :=
  "Memory file has no parseable Last Updated timestamp (ghost archive)"

/-- True when a path lies under the memory tree. -/
def isMemoryPath (p : String) : Bool := (splitChar '/' p).contains "memory"

/-- Modelled from the spec: memory_freshness_enforcer.sh (absent from the
snapshot) on a Read event.  Non-memory paths and operational filenames
pass silently; a missing timestamp denies; otherwise the age decides. -/
def memory_freshness_enforcer (path : String) (age : Option Nat) : Verdict × Option String :=
  if ¬ isMemoryPath path then (.allow, none)
  else if operationalMemoryFiles.contains (basename path) then (.allow, none)
  else
    match age with
    | none => (.deny ghostReason, none)
    | some a => freshnessDecision a

/-! ## Sandbox boundary guard (sandbox_boundary_guard.sh) -/

/-- The path p equals the directory or lies strictly under it. -/
def underDir (dir p : String) : Bool := p = dir || strStartsWith p (dir ++ "/")

/-- Allowed prefixes outside the project root. -/
def isAllowedExternal (p : String) : Bool :=
  underDir "/tmp" p || underDir "/var/tmp" p || p = "/dev/null"

/-- Resolve a possibly relative file path against the project root. -/
def resolvePath (root p : String) : String :=
  if strStartsWith p "/" then p else root ++ "/" ++ p

/-- Modelled from the spec: the fixed set of sensitive credential
filename patterns denied even inside the project. -/
def isSensitiveName (n : String) : Bool :=
  n = ".env" || strStartsWith n ".env." || strEndsWith n ".pem" || strEndsWith n ".key" ||
  n = ".npmrc" || n = ".pypirc" || n = ".netrc" || n = ".git-credentials" ||
  (strStartsWith n "credentials" && strEndsWith n ".json") ||
  (strStartsWith n "service-account" && strEndsWith n ".json")

/-- Deny reason for a path escaping the sandbox. -/
def outsideReason : String :=
  "File access " ++ "outside the project directory" ++ " is blocked"

/-- Deny reason for a sensitive credential file. -/
def sensitiveReason (n : String) : String :=
  "Access to credentials/secrets file " ++ n ++ " is blocked"

/-- Modelled from the spec: sandbox_boundary_guard.sh (absent from the
snapshot) on a Read/Write/Edit event with a file_path: deny paths that
resolve outside the project root and allowed prefixes, deny sensitive
credential filenames even inside the root, allow the rest. -/
def sandbox_guard_file (root p : String) : Verdict :=
  let rp := resolvePath root p
  if ¬ (underDir root rp || isAllowedExternal rp) then .deny outsideReason
  else if isSensitiveName (basename rp) then .deny (sensitiveReason (basename rp))
  else .allow

/-- Modelled from the spec: the sandbox guard on a whole event; a missing
file_path or an unrecognized tool allows (nothing to check).  The Bash
command-text scan is the separate command branch of the script and is
not needed by the file-path claims. -/
def sandbox_boundary_guard (e : HookEvent) : Verdict :=
  if e.toolName = "Read" || e.toolName = "Write" || e.toolName = "Edit" then
    match e.filePath with
    | none => .allow
    | some p => sandbox_guard_file e.cwd p
  else .allow

/-! ## Dependency sentinel (dependency_sentinel.sh) -/

/-- Modelled from the spec: the parsed content of security/deny_list.txt
(absent from the snapshot); newline-delimited package names with
optional pip:/npm: ecosystem prefixes, as exercised by the test suite. -/
def denyListLines : List String :=
  ["colourama", "requestslib", "requsts", "requets", "urllib4",
   "djago", "djnago", "fask", "flsk", "nump", "numby", "pandsa",
   "ctx", "distutils-precedence", "pipconfig",
   "pip:setup", "pip:pip", "pip:os", "pip:sys", "pip:http",
   "crossenv", "cross-env.js", "lodahs", "loadsh", "expresss",
   "exress", "recat", "babelcli",
   "npm:npm", "npm:node", "npm:kernel"]

/-- Interpret one deny-list line for an ecosystem: an entry with the
matching prefix applies with the prefix stripped, an entry with the
other ecosystem's prefix does not apply, an unprefixed entry applies to
every ecosystem. -/
def denyLineFor (eco : String) (l : String) : Option String :=
  if strStartsWith l (eco ++ ":") then some (strToLower (strDropN l (eco.length + 1)))
  else if strStartsWith l "pip:" || strStartsWith l "npm:" then none
  else some (strToLower l)

/-- The deny list effective for one ecosystem, lowercased. -/
def denyFor (eco : String) : List String := denyListLines.filterMap (denyLineFor eco)

/-- Does this token sequence begin with a package-manager install
invocation?  Returns the ecosystem and the trailing tokens. -/
def installHere (tokens : List String) : Option (String × List String) :=
  match tokens with
  | "pip" :: "install" :: rest => some ("pip", rest)
  | "pip3" :: "install" :: rest => some ("pip", rest)
  | "python" :: "-m" :: "pip" :: "install" :: rest => some ("pip", rest)
  | "python3" :: "-m" :: "pip" :: "install" :: rest => some ("pip", rest)
  | "npm" :: "install" :: rest => some ("npm", rest)
  | "npm" :: "i" :: rest => some ("npm", rest)
  | "yarn" :: "add" :: rest => some ("npm", rest)
  | _ => none

/-- Scan the token list for the first install invocation. -/
def findInstall : List String → Option (String × List String)
  | [] => none
  | t :: rest =>
    match installHere (t :: rest) with
    | some r => some r
    | none => findInstall rest

/-- The named package tokens of an install command: trailing tokens that
are not option flags. -/
def packagesOf (rest : List String) : List String :=
  rest.filter (fun t => ¬ strStartsWith t "-")

/-- Deny reason of the dependency sentinel; names the offending package
and the identifying marker. -/
def sentinelReason (pkg : String) : String :=
  "Dependency Sentinel: deny-listed package " ++ pkg ++ " is blocked"

/-- Modelled from the spec: dependency_sentinel.sh (absent from the
snapshot) on a Bash command: detect install invocations and deny when
any named package token matches the deny list case-insensitively. -/
def dependency_sentinel_bash (cmd : String) : Verdict :=
  match findInstall (tokensOf cmd) with
  | none => .allow
  | some (eco, rest) =>
    match (packagesOf rest).find? (fun p => (denyFor eco).contains (strToLower p)) with
    | none => .allow
    | some bad => .deny (sentinelReason bad)

/-- The dependency sentinel on a whole event (non-Bash tools allow). -/
def dependency_sentinel (e : HookEvent) : Verdict :=
  if e.toolName = "Bash" then dependency_sentinel_bash e.command else .allow

/-! ## Git hygiene guard (git_hygiene_enforcer.sh) -/

/-- Force-push flags, denied regardless of target branch. -/
def forceFlags : List String := ["--force", "-f", "--force-with-lease"]

/-- Does this push argument target a protected branch directly, either
by name or through the HEAD:branch ref syntax? -/
def protectedTarget (t : String) : Option String :=
  if t = "main" || t = "HEAD:main" then some "main"
  else if t = "master" || t = "HEAD:master" then some "master"
  else none

/-- Tokens after the first git push occurrence, wherever it appears in
the (possibly chained or piped) token sequence. -/
def findAfterGitPush : List String → Option (List String)
  | [] => none
  | "git" :: "push" :: rest => some rest
  | _ :: rest => findAfterGitPush rest

/-- Tokens after the first git commit occurrence. -/
def findAfterGitCommit : List String → Option (List String)
  | [] => none
  | "git" :: "commit" :: rest => some rest
  | _ :: rest => findAfterGitCommit rest

/-- Deny reason for a direct push to a protected branch; names the
branch. -/
def pushDenyReason (b : String) : String :=
  "Git Hygiene: direct push to protected branch " ++ b ++ " is blocked"

/-- Deny reason for a force push. -/
def forceDenyReason : String :=
  "Git Hygiene: " ++ "force" ++ " push is blocked"

/-- Deny reason for a secret found in the staged diff. -/
def secretDenyReason : String :=
  "Git Hygiene: staged diff contains a " ++ "secret" ++ " pattern"

/-- Warning for a commit message that is not Conventional Commits. -/
def conventionalWarn : String :=
  "Commit message does not follow the " ++ "conventional" ++ " commits format"

/-- Verdict for the arguments of a git push: protected-branch targets
deny naming the branch, force flags deny mentioning force, anything
else is allowed. -/
def pushVerdict (args : List String) : Verdict :=
  match args.findSome? protectedTarget with
  | some b => .deny (pushDenyReason b)
  | none =>
    if args.any (fun t => forceFlags.contains t) then .deny forceDenyReason
    else .allow

/-- Conventional Commits types. -/
def commitTypes : List String :=
  ["feat", "fix", "docs", "chore", "refactor", "test", "ci", "perf", "build", "style"]

/-- Strip an optional parenthesised scope at the front of the remainder
of a commit message; none when an opening parenthesis is never closed. -/
def afterScope (r : String) : Option String :=
  if strStartsWith r "(" then (afterSub [')'] (r.data.drop 1)).map String.mk
  else some r

/-- Strip an optional exclamation mark (breaking-change marker). -/
def afterBang (r : String) : String :=
  if strStartsWith r "!" then strDropN r 1 else r

/-- Modelled from the spec: the Conventional Commits grammar check,
type(scope)?!?: description with a fixed type list and a nonempty
description. -/
def isConventionalCommit (msg : String) : Bool :=
  commitTypes.any (fun t =>
    strStartsWith msg t &&
    (match afterScope (strDropN msg t.length) with
     | none => false
     | some r1 =>
       let r2 := afterBang r1
       strStartsWith r2 ": " && !(((strDropN r2 2).data.dropWhile (fun c => c = ' ')).isEmpty)))

/-- The commit message passed with -m, extracted from the raw command
text (the text between the opening and closing double quote). -/
def commitMessageOf (cmd : String) : Option String :=
  match afterSub ("-m \"".data) cmd.data with
  | none => none
  | some rest => some (String.mk (rest.takeWhile (fun c => c ≠ '"')))

/-- Modelled from the spec: git_hygiene_enforcer.sh (absent from the
snapshot) on a Bash command.  The staged-diff secret scan queries git
state outside the event, so its result is abstracted to the boolean
stagedHasSecret input. -/
def git_hygiene_enforcer_bash (cmd : String) (stagedHasSecret : Bool) : Verdict :=
  let tokens := tokensOf cmd
  match findAfterGitPush tokens with
  | some args => pushVerdict args
  | none =>
    match findAfterGitCommit tokens with
    | some _ =>
      if stagedHasSecret then .deny secretDenyReason
      else
        match commitMessageOf cmd with
        | none => .allow
        | some msg => if isConventionalCommit msg then .allow else .warn conventionalWarn
    | none => .allow

/-- The git hygiene guard on a whole event (non-Bash tools allow). -/
def git_hygiene_enforcer (e : HookEvent) (stagedHasSecret : Bool) : Verdict :=
  if e.toolName = "Bash" then git_hygiene_enforcer_bash e.command stagedHasSecret else .allow

/-! ## Guard process wrappers (invocation contract) -/

/-- One dependency-sentinel process invocation. -/
def runDependencySentinel (e : HookEvent) : ProcResult :=
  emitDecision (dependency_sentinel e)

/-- One git-hygiene process invocation. -/
def runGitHygieneEnforcer (e : HookEvent) (stagedHasSecret : Bool) : ProcResult :=
  emitDecision (git_hygiene_enforcer e stagedHasSecret)

/-- One sandbox-guard process invocation. -/
def runSandboxBoundaryGuard (e : HookEvent) : ProcResult :=
  emitDecision (sandbox_boundary_guard e)

/-! ## Chain state tracker (command_chain_context.sh) -/

/-- One completed command: the extracted command name plus the context
files and skills the transcript shows were used. -/
structure CommandRecord where
  command : String
  contextLoaded : List String
  skillsInvoked : List String
deriving DecidableEq, Repr

/-- Per-session chain state persisted as .forge/chain_state.json. -/
structure ChainState where
  sessionId : String
  commandHistory : List CommandRecord
deriving DecidableEq, Repr

/-- A decoded TaskCompleted event: the task subject, the session id and
the lines of the transcript (empty when no transcript is provided). -/
structure TaskCompletedEvent where
  taskSubject : String
  sessionId : String
  transcriptLines : List String
deriving DecidableEq, Repr

/-- Modelled from the spec: the command name extracted from the task
subject; a slash subject yields its first word, anything else is the
generic task. -/
def commandOfSubject (s : String) : String :=
  if strStartsWith s "/" then String.mk ((s.data.drop 1).takeWhile (fun c => c ≠ ' '))
  else "task"

/-- Transcript lines mentioning a context file. -/
def contextLoadedOf (lines : List String) : List String :=
  lines.filter (fun l => strContainsB l "context/")

/-- The skill name a transcript line mentions, when it reads a skill
file (the path segment right after skills/). -/
def skillOf (l : String) : Option String :=
  match afterSub ("skills/".data) l.data with
  | none => none
  | some rest => some (String.mk (rest.takeWhile (fun c => c ≠ '/')))

/-- Skills the transcript shows were invoked. -/
def skillsInvokedOf (lines : List String) : List String :=
  lines.filterMap skillOf

/-- The CommandRecord built for one TaskCompleted event. -/
def mkRecord (e : TaskCompletedEvent) : CommandRecord :=
  ⟨commandOfSubject e.taskSubject, contextLoadedOf e.transcriptLines,
    skillsInvokedOf e.transcriptLines⟩

/-- Modelled from the spec: command_chain_context.sh (absent from the
snapshot) on one TaskCompleted event.  A matching stored sessionId
appends the record to the history; a different or absent one replaces
the history with a single-element list. -/
def command_chain_context (prior : Option ChainState) (e : TaskCompletedEvent) : ChainState :=
  match prior with
  | some st =>
    if st.sessionId = e.sessionId then ⟨st.sessionId, st.commandHistory ++ [mkRecord e]⟩
    else ⟨e.sessionId, [mkRecord e]⟩
  | none => ⟨e.sessionId, [mkRecord e]⟩

/-- Process a sequence of TaskCompleted events in order. -/
def runChain (prior : Option ChainState) (evs : List TaskCompletedEvent) : Option ChainState :=
  evs.foldl (fun acc e => some (command_chain_context acc e)) prior

/-! ## PII/secret redactor (pii_redactor.sh) -/

/-- Characters allowed in the local part of an email address. -/
def isEmailLocalChar (c : Char) : Bool :=
  c.isAlphanum || c = '.' || c = '_' || c = '%' || c = '+' || c = '-'

/-- Characters allowed in the domain part of an email address. -/
def isEmailDomainChar (c : Char) : Bool :=
  c.isAlphanum || c = '-' || c = '.'

/-- Characters of an AWS access key id body. -/
def isUpperAlnum (c : Char) : Bool := c.isDigit || c.isUpper

/-- Does some suffix of the character list satisfy the position check? -/
def anyPos (p : List Char → Bool) : List Char → Bool
  | [] => p []
  | c :: cs => p (c :: cs) || anyPos p cs

/-- The final dot-separated label of a domain is at least two letters. -/
def lastLabelAlpha (dom : List Char) : Bool :=
  let tld := (dom.reverse.takeWhile (fun c => c ≠ '.')).reverse
  2 ≤ tld.length && tld.all Char.isAlpha

/-- The text right after an at-sign looks like a mail domain: domain
characters containing a dot, ending in an alphabetic top-level label. -/
def domainOk (cs : List Char) : Bool :=
  let dom := cs.takeWhile isEmailDomainChar
  dom.contains '.' && lastLabelAlpha dom

/-- An email address occurs at this position: a local character, an
at-sign, then a plausible domain. -/
def emailAt : List Char → Bool
  | a :: '@' :: rest => isEmailLocalChar a && domainOk rest
  | _ => false

/-- An SSN (three digits, dash, two digits, dash, four digits) occurs at
this position. -/
def ssnAt : List Char → Bool
  | a :: b :: c :: '-' :: d :: e :: '-' :: f :: g :: h :: i :: _ =>
    a.isDigit && b.isDigit && c.isDigit && d.isDigit && e.isDigit &&
    f.isDigit && g.isDigit && h.isDigit && i.isDigit
  | _ => false

/-- A phone number (three digits, dash, three digits, dash, four
digits; a leading country code then contains this) occurs here. -/
def phoneAt : List Char → Bool
  | a :: b :: c :: '-' :: d :: e :: f :: '-' :: g :: h :: i :: j :: _ =>
    a.isDigit && b.isDigit && c.isDigit && d.isDigit && e.isDigit &&
    f.isDigit && g.isDigit && h.isDigit && i.isDigit && j.isDigit
  | _ => false

/-- An AWS access key id (AKIA then sixteen uppercase alphanumerics)
occurs at this position. -/
def awsAt : List Char → Bool
  | 'A' :: 'K' :: 'I' :: 'A' :: rest =>
    (rest.take 16).length = 16 && (rest.take 16).all isUpperAlnum
  | _ => false

/-- Email detector over the whole prompt. -/
def hasEmail (s : String) : Bool := anyPos emailAt s.data

/-- SSN detector over the whole prompt. -/
def hasSsn (s : String) : Bool := anyPos ssnAt s.data

/-- AWS access key detector over the whole prompt. -/
def hasAws (s : String) : Bool := anyPos awsAt s.data

/-- GitHub token detector: classic and fine-grained PAT markers. -/
def hasGithub (s : String) : Bool :=
  strContainsB s "ghp_" || strContainsB s "github_pat_"

/-- Private key header detector. -/
def hasPrivateKey (s : String) : Bool :=
  strContainsB s "-----BEGIN " && strContainsB s "PRIVATE KEY-----"

/-- Phone number detector over the whole prompt. -/
def hasPhone (s : String) : Bool := anyPos phoneAt s.data

/-- Modelled from the spec: the detected PII categories of a prompt, by
name, in a fixed order.  Private and loopback IP addresses match none
of the patterns (no detector keys on dotted quads). -/
def piiCategories (s : String) : List String :=
  (if hasEmail s then ["email"] else []) ++
  (if hasSsn s then ["ssn"] else []) ++
  (if hasAws s then ["aws"] else []) ++
  (if hasGithub s then ["github"] else []) ++
  (if hasPrivateKey s then ["private key"] else []) ++
  (if hasPhone s then ["phone"] else [])

/-- Comma-join of the detected category names. -/
def joinCats : List String → String
  | [] => ""
  | [c] => c
  | c :: rest => c ++ ", " ++ joinCats rest

/-- The aggregated warning text enumerating every detected category. -/
def piiWarnText (cats : List String) : String :=
  "PII Detection Warning: detected " ++ joinCats cats

/-- Modelled from the spec: pii_redactor.sh (absent from the snapshot)
on a UserPromptSubmit prompt.  Never denies: warns naming each detected
category when at least one pattern matches, silent otherwise. -/
def pii_redactor (prompt : String) : Verdict :=
  match piiCategories prompt with
  | [] => .allow
  | cats => .warn (piiWarnText cats)

/-- One PII-redactor process invocation. -/
def runPiiRedactor (prompt : String) : ProcResult :=
  emitDecision (pii_redactor prompt)

/-! ## Memory pruning daemon (memory_pruning_daemon.sh) -/

/-- Type-specific line budget of a memory file. -/
def lineBudget (name : String) : Nat :=
  if name = "project_overview.md" then 200
  else if name = "review_history.md" then 300
  else 500

/-- Is this line the line-1 timestamp marker? -/
def isTimestampLine (l : String) : Bool := strStartsWith l "<!-- Last Updated:"

/-- Refresh the line-1 timestamp of a header, when one is present. -/
def refreshTimestamp (today : String) : List String → List String
  | [] => []
  | l :: rest =>
    (if isTimestampLine l then "<!-- Last Updated: " ++ today ++ " -->" else l) :: rest

/-- The single provenance marker inserted after the preserved header. -/
def pruneMarker (removed : Nat) : String :=
  "<!-- Pruned: " ++ toString removed ++ " lines removed -->"

/-- Modelled from the spec: memory_pruning_daemon.sh (absent from the
snapshot) truncating one file's lines.  At or under budget the file is
untouched; otherwise the first 5 header lines are kept (timestamp
refreshed), one marker line records the removal, and the most recent
lines fill the budget. -/
def pruneContent (today name : String) (lines : List String) : List String :=
  if lines.length ≤ lineBudget name then lines
  else
    refreshTimestamp today (lines.take 5)
      ++ [pruneMarker ((lines.drop 5).length - (lineBudget name - 5))]
      ++ (lines.drop 5).drop ((lines.drop 5).length - (lineBudget name - 5))

/-- The pruning daemon on one memory file: operational files are never
touched, others are pruned to their budget. -/
def memory_pruning_daemon_file (today name : String) (lines : List String) : List String :=
  if operationalMemoryFiles.contains name then lines
  else pruneContent today name lines

/-! ## Helper lemmas -/

set_option maxRecDepth 100000

theorem strAppendAssoc (a b c : String) : a ++ b ++ c = a ++ (b ++ c) := by
  cases a with
  | mk la =>
    cases b with
    | mk lb =>
      cases c with
      | mk lc => exact congrArg String.mk (List.append_assoc la lb lc)

theorem strAppendNil (a : String) : a ++ "" = a := by
  cases a with
  | mk la => exact congrArg String.mk (List.append_nil la)

theorem strNilAppend (a : String) : "" ++ a = a := by
  cases a with
  | mk la => rfl

theorem strMentions_append_left (lit : String) {s sub : String} (h : strMentions s sub) :
    strMentions (lit ++ s) sub := by
  obtain ⟨pre, post, rfl⟩ := h
  exact ⟨lit ++ pre, post, by simp only [strAppendAssoc]⟩

theorem joinCats_mentions {cats : List String} {cat : String} (h : cat ∈ cats) :
    strMentions (joinCats cats) cat := by
  induction cats with
  | nil => cases h
  | cons c rest ih =>
    cases rest with
    | nil =>
      cases h with
      | head => exact ⟨"", "", (strAppendNil cat).symm.trans (congrArg (· ++ "") (strNilAppend cat).symm)⟩
      | tail _ h2 => cases h2
    | cons d rest2 =>
      cases h with
      | head =>
        exact ⟨"", ", " ++ joinCats (d :: rest2),
          by simp only [joinCats, strAppendAssoc, strNilAppend]⟩
      | tail _ h2 => exact strMentions_append_left (c ++ ", ") (ih h2)

theorem appendAll_spec (msgs : List (String × String)) (buf : List String)
    (hbuf : buf.length ≤ healthBufferMax) :
    appendAll buf msgs =
      buf ++ (((msgs.filter (fun p => p.2 ≠ "")).take (healthBufferMax - buf.length)).map
        (fun p => mkEntry p.1 p.2)) := by
  induction msgs generalizing buf with
  | nil => simp [appendAll]
  | cons p rest ih =>
    by_cases hp : p.2 = ""
    · have hstep : health_buffer_append p.1 p.2 buf = buf := by
        simp [health_buffer_append, hp]
      have : appendAll buf (p :: rest) = appendAll buf rest := by
        simp [appendAll, hstep]
      rw [this, ih buf hbuf]
      simp [hp]
    · by_cases hfull : healthBufferMax ≤ buf.length
      · have hlen : buf.length = healthBufferMax := Nat.le_antisymm hbuf hfull
        have hstep : health_buffer_append p.1 p.2 buf = buf := by
          simp [health_buffer_append, hp, hfull]
        have h0 : healthBufferMax - buf.length = 0 := by omega
        have : appendAll buf (p :: rest) = appendAll buf rest := by
          simp [appendAll, hstep]
        rw [this, ih buf hbuf]
        simp [hp, h0]
      · have hlt : buf.length < healthBufferMax := Nat.lt_of_not_le hfull
        have hstep : health_buffer_append p.1 p.2 buf = buf ++ [mkEntry p.1 p.2] := by
          simp [health_buffer_append, hp, hfull]
        have hstep2 : appendAll buf (p :: rest) = appendAll (buf ++ [mkEntry p.1 p.2]) rest := by
          simp [appendAll, hstep]
        have hlen2 : (buf ++ [mkEntry p.1 p.2]).length ≤ healthBufferMax := by
          simp; omega
        rw [hstep2, ih (buf ++ [mkEntry p.1 p.2]) hlen2]
        have htake : healthBufferMax - buf.length
            = (healthBufferMax - (buf ++ [mkEntry p.1 p.2]).length) + 1 := by
          simp; omega
        simp only [List.filter_cons, hp, List.append_assoc]
        rw [htake]
        simp [hp, List.take_succ_cons]

theorem appendAll_length_le (msgs : List (String × String)) (buf : List String)
    (hbuf : buf.length ≤ healthBufferMax) :
    (appendAll buf msgs).length ≤ healthBufferMax := by
  rw [appendAll_spec msgs buf hbuf]
  simp only [List.length_append, List.length_map]
  have := List.length_take_le (healthBufferMax - buf.length)
    (msgs.filter (fun p => p.2 ≠ ""))
  omega

theorem refreshTimestamp_length (t : String) (l : List String) :
    (refreshTimestamp t l).length = l.length := by
  cases l <;> simp [refreshTimestamp]

theorem refreshTimestamp_drop_one (t : String) (l : List String) :
    (refreshTimestamp t l).drop 1 = l.drop 1 := by
  cases l <;> simp [refreshTimestamp]

theorem lineBudget_ge_200 (name : String) : 200 ≤ lineBudget name := by
  unfold lineBudget
  split_ifs <;> omega

/-! ## Claim theorems -/

/-- C1: every guard invocation exits with process exit code 0, whatever
the input event and verdict; a deny is expressed only structurally in
the emitted JSON payload, never via a non-zero exit status. -/
theorem forge_guard_exit_code_zero :
    (∀ e : HookEvent, (runDependencySentinel e).exitCode = 0) ∧
    (∀ (e : HookEvent) (s : Bool), (runGitHygieneEnforcer e s).exitCode = 0) ∧
    (∀ e : HookEvent, (runSandboxBoundaryGuard e).exitCode = 0) ∧
    (∀ p : String, (runPiiRedactor p).exitCode = 0) ∧
    (∀ v : Verdict, (emitDecision v).exitCode = 0) ∧
    (∀ (v : Verdict) (r : String), (emitDecision v).stdout = some (.denyOut r) ↔ v = .deny r) := by
  have hz : ∀ v : Verdict, (emitDecision v).exitCode = 0 := by
    intro v; cases v <;> rfl
  refine ⟨fun e => hz _, fun e s => hz _, fun e => hz _, fun p => hz _, hz, ?_⟩
  intro v r
  cases v <;> simp [emitDecision]

/-- C2: the health buffer never exceeds 200 entries under any append
sequence, an append onto a full buffer is a silent no-op, the first 200
appended (non-empty) entries are kept and later ones dropped, and
appending 210 messages stores exactly 200 entries. -/
theorem forge_health_buffer_cap :
    (∀ msgs : List (String × String), (appendAll [] msgs).length ≤ healthBufferMax) ∧
    (∀ (buf : List String) (ts msg : String), buf.length = healthBufferMax →
      health_buffer_append ts msg buf = buf) ∧
    (∀ msgs : List (String × String),
      appendAll [] msgs =
        ((msgs.filter (fun p => p.2 ≠ "")).take healthBufferMax).map
          (fun p => mkEntry p.1 p.2)) ∧
    (appendAll [] (List.replicate 210 ("2025-01-01T00:00:00Z", "health warning"))).length
      = 200 := by
  refine ⟨?_, ?_, ?_, by decide⟩
  · intro msgs
    exact appendAll_length_le msgs [] (by simp)
  · intro buf ts msg h
    simp [health_buffer_append, h]
  · intro msgs
    simpa using appendAll_spec msgs [] (by simp)

/-- C2 witness: an append onto a buffer already holding 200 entries is
a no-op at a concrete full buffer. -/
theorem forge_health_buffer_cap_witness :
    health_buffer_append "2025-01-01T00:00:00Z" "overflow line" (List.replicate 200 "x")
      = List.replicate 200 "x" :=
  forge_health_buffer_cap.2.1 (List.replicate 200 "x") "2025-01-01T00:00:00Z" "overflow line"
    (by decide)

/-- C10: appending an empty message to the health buffer is a no-op for
every buffer state: nothing is written, not even a timestamp line. -/
theorem forge_health_buffer_empty_append_noop :
    ∀ (buf : List String) (ts : String), health_buffer_append ts "" buf = buf := by
  intro buf ts
  simp [health_buffer_append]

/-- C3: the freshness guard classifies a non-operational memory file as
fresh (allow, silent) iff the age is at most 30 days, aging (allow with
a deferred HealthBuffer warning) iff it is 31 to 89 days, stale (deny)
iff it is at least 90 days; the 30/31 and 89/90 boundary pairs differ,
and a stale deny reason contains the word stale. -/
theorem forge_memory_freshness_classification :
    (∀ (path : String) (a : Nat), isMemoryPath path = true →
      operationalMemoryFiles.contains (basename path) = false →
      memory_freshness_enforcer path (some a) = freshnessDecision a) ∧
    (∀ a : Nat, freshnessDecision a = (.allow, none) ↔ a ≤ 30) ∧
    (∀ a : Nat, freshnessDecision a = (.allow, some (agingWarnMsg a)) ↔ (31 ≤ a ∧ a ≤ 89)) ∧
    (∀ a : Nat, (freshnessDecision a).1 = .deny (staleReason a) ↔ 90 ≤ a) ∧
    (classifyAge 30 ≠ classifyAge 31 ∧ classifyAge 89 ≠ classifyAge 90) ∧
    (∀ a : Nat, 90 ≤ a → strMentions (staleReason a) "stale") := by
  refine ⟨?_, ?_, ?_, ?_, by decide, ?_⟩
  · intro path a h1 h2
    have h2' : ¬ (basename path ∈ operationalMemoryFiles) := by simpa using h2
    simp [memory_freshness_enforcer, h1, h2']
  · intro a
    unfold freshnessDecision classifyAge
    split_ifs with h1 h2 <;> simp_all
  · intro a
    unfold freshnessDecision classifyAge
    split_ifs with h1 h2 <;> simp_all <;> omega
  · intro a
    unfold freshnessDecision classifyAge
    split_ifs with h1 h2 <;> simp_all <;> omega
  · intro a _
    exact ⟨"Memory file is ", ": last updated " ++ toString a ++ " days ago", rfl⟩

/-- C3 witness: a 95-day-old non-operational memory file is handled by
the band decision and its stale reason contains the word stale. -/
theorem forge_memory_freshness_classification_witness :
    memory_freshness_enforcer "forge-plugin/memory/projects/test/overview.md" (some 95)
      = freshnessDecision 95 ∧
    strMentions (staleReason 95) "stale" :=
  ⟨forge_memory_freshness_classification.1 "forge-plugin/memory/projects/test/overview.md" 95
      (by decide) (by decide),
    forge_memory_freshness_classification.2.2.2.2.2 95 (by decide)⟩

/-- C4: on Read/Write/Edit events the sandbox guard denies a file path
resolving outside the project root and the allowed external prefixes,
denies a sensitive credential filename even inside the root, and allows
an in-root non-sensitive path. -/
theorem forge_sandbox_boundary_verdicts :
    (∀ (e : HookEvent) (p : String),
      (e.toolName = "Read" ∨ e.toolName = "Write" ∨ e.toolName = "Edit") →
      e.filePath = some p →
      sandbox_boundary_guard e = sandbox_guard_file e.cwd p) ∧
    (∀ root p, (underDir root (resolvePath root p) || isAllowedExternal (resolvePath root p)) = false →
      sandbox_guard_file root p = .deny outsideReason) ∧
    (∀ root p, (underDir root (resolvePath root p) || isAllowedExternal (resolvePath root p)) = true →
      isSensitiveName (basename (resolvePath root p)) = true →
      sandbox_guard_file root p = .deny (sensitiveReason (basename (resolvePath root p)))) ∧
    (∀ root p, (underDir root (resolvePath root p) || isAllowedExternal (resolvePath root p)) = true →
      isSensitiveName (basename (resolvePath root p)) = false →
      sandbox_guard_file root p = .allow) := by
  refine ⟨?_, ?_, ?_, ?_⟩
  · intro e p htool hpath
    rcases htool with h | h | h <;> simp [sandbox_boundary_guard, h, hpath]
  · intro root p h
    simp [sandbox_guard_file, h]
  · intro root p h1 h2
    simp [sandbox_guard_file, h1, h2]
  · intro root p h1 h2
    simp [sandbox_guard_file, h1, h2]

/-- C4 witness: the three verdict clauses at concrete paths — a system
file outside the root is denied, an in-root credential file is denied,
an in-root source file is allowed. -/
theorem forge_sandbox_boundary_verdicts_witness :
    sandbox_guard_file "/proj" "/etc/passwd" = .deny outsideReason ∧
    sandbox_guard_file "/proj" ".env" = .deny (sensitiveReason (basename (resolvePath "/proj" ".env"))) ∧
    sandbox_guard_file "/proj" "src/main.py" = .allow :=
  ⟨forge_sandbox_boundary_verdicts.2.1 "/proj" "/etc/passwd" (by decide),
    forge_sandbox_boundary_verdicts.2.2.1 "/proj" ".env" (by decide) (by decide),
    forge_sandbox_boundary_verdicts.2.2.2 "/proj" "src/main.py" (by decide) (by decide)⟩

/-- C5: the dependency sentinel denies an install command as soon as
one named package token matches the deny list case-insensitively, with
a reason naming the offending package, and allows an install command
whose package tokens all miss the deny list; in particular the mixed
command pip install requests colourama flask is denied naming
colourama. -/
theorem forge_dependency_sentinel_denylist :
    (∀ cmd eco rest, findInstall (tokensOf cmd) = some (eco, rest) →
      (∃ p ∈ packagesOf rest, (denyFor eco).contains (strToLower p) = true) →
      ∃ bad ∈ packagesOf rest, (denyFor eco).contains (strToLower bad) = true ∧
        dependency_sentinel_bash cmd = .deny (sentinelReason bad) ∧
        strMentions (sentinelReason bad) bad) ∧
    (∀ cmd eco rest, findInstall (tokensOf cmd) = some (eco, rest) →
      (∀ p ∈ packagesOf rest, (denyFor eco).contains (strToLower p) = false) →
      dependency_sentinel_bash cmd = .allow) ∧
    dependency_sentinel_bash "pip install requests colourama flask"
      = .deny (sentinelReason "colourama") ∧
    strMentions (sentinelReason "colourama") "colourama" ∧
    dependency_sentinel_bash "pip install requests" = .allow := by
  refine ⟨?_, ?_, by decide,
    ⟨"Dependency Sentinel: deny-listed package ", " is blocked", rfl⟩, by decide⟩
  · intro cmd eco rest hfind hex
    cases hfind2 : (packagesOf rest).find? (fun p => (denyFor eco).contains (strToLower p)) with
    | none =>
      exfalso
      obtain ⟨p, hmem, hp⟩ := hex
      have hnot := List.find?_eq_none.mp hfind2 p hmem
      exact hnot (by simpa using hp)
    | some bad =>
      refine ⟨bad, List.mem_of_find?_eq_some hfind2, ?_, ?_, ?_⟩
      · simpa using List.find?_some hfind2
      · simp only [dependency_sentinel_bash, hfind, hfind2]
      · exact ⟨"Dependency Sentinel: deny-listed package ", " is blocked", rfl⟩
  · intro cmd eco rest hfind hall
    cases hfind2 : (packagesOf rest).find? (fun p => (denyFor eco).contains (strToLower p)) with
    | none => simp only [dependency_sentinel_bash, hfind, hfind2]
    | some bad =>
      exfalso
      have hmem := List.mem_of_find?_eq_some hfind2
      have hyes : strToLower bad ∈ denyFor eco := by simpa using List.find?_some hfind2
      have hno : strToLower bad ∉ denyFor eco := by simpa using hall bad hmem
      exact hno hyes

/-- C5 witness: the deny clause applied to the concrete mixed install
command, exhibiting colourama as the offending package. -/
theorem forge_dependency_sentinel_denylist_witness :
    ∃ bad ∈ packagesOf ["requests", "colourama", "flask"],
      (denyFor "pip").contains (strToLower bad) = true ∧
      dependency_sentinel_bash "pip install requests colourama flask"
        = .deny (sentinelReason bad) ∧
      strMentions (sentinelReason bad) bad :=
  forge_dependency_sentinel_denylist.1 "pip install requests colourama flask" "pip"
    ["requests", "colourama", "flask"] (by decide) ⟨"colourama", by decide, by decide⟩

/-- C6: a Bash command containing a git push targeting main or master
directly — by branch name or HEAD:branch ref syntax, wherever the git
invocation appears in a chained or piped command — is denied with a
reason naming the protected branch; a push to a non-protected branch
without force flags is allowed. -/
theorem forge_git_hygiene_protected_push :
    (∀ cmd (secret : Bool) args b, findAfterGitPush (tokensOf cmd) = some args →
      args.findSome? protectedTarget = some b →
      git_hygiene_enforcer_bash cmd secret = .deny (pushDenyReason b) ∧
        strMentions (pushDenyReason b) b) ∧
    (∀ cmd (secret : Bool) args, findAfterGitPush (tokensOf cmd) = some args →
      args.findSome? protectedTarget = none →
      args.any (fun t => forceFlags.contains t) = false →
      git_hygiene_enforcer_bash cmd secret = .allow) ∧
    git_hygiene_enforcer_bash "echo done && git push origin main" false
      = .deny (pushDenyReason "main") ∧
    git_hygiene_enforcer_bash "echo ok | git push origin main" false
      = .deny (pushDenyReason "main") ∧
    git_hygiene_enforcer_bash "git push origin HEAD:master" false
      = .deny (pushDenyReason "master") ∧
    git_hygiene_enforcer_bash "git push origin feature-auth" false = .allow := by
  refine ⟨?_, ?_, by decide, by decide, by decide, by decide⟩
  · intro cmd secret args b h1 h2
    constructor
    · simp only [git_hygiene_enforcer_bash, h1, pushVerdict, h2]
    · exact ⟨"Git Hygiene: direct push to protected branch ", " is blocked", rfl⟩
  · intro cmd secret args h1 h2 h3
    have h3' : ∀ x ∈ args, x ∉ forceFlags := by simpa using h3
    simp [git_hygiene_enforcer_bash, h1, pushVerdict, h2]
    exact h3'

/-- C6 witness: the deny clause applied to the concrete chained command
echo done && git push origin main. -/
theorem forge_git_hygiene_protected_push_witness :
    git_hygiene_enforcer_bash "echo done && git push origin main" false
      = .deny (pushDenyReason "main") ∧
    strMentions (pushDenyReason "main") "main" :=
  forge_git_hygiene_protected_push.1 "echo done && git push origin main" false
    ["origin", "main"] "main" (by decide) (by decide)

/-- C7: the pruning pass leaves a file at or under its type-specific
budget byte-for-byte unchanged, never modifies an operational file, and
prunes an oversized file to at most the budget plus 10 marker-overhead
lines with header lines 2 to 5 intact and line 1 either untouched or a
refreshed timestamp. -/
theorem forge_memory_pruning_budgets :
    (∀ today name lines, lines.length ≤ lineBudget name →
      memory_pruning_daemon_file today name lines = lines) ∧
    (∀ today name lines, name ∈ operationalMemoryFiles →
      memory_pruning_daemon_file today name lines = lines) ∧
    (∀ today name lines, lineBudget name < lines.length →
      (pruneContent today name lines).length ≤ lineBudget name + 10 ∧
      ((pruneContent today name lines).take 5).drop 1 = (lines.take 5).drop 1 ∧
      ((pruneContent today name lines).take 1 = lines.take 1 ∨
        (pruneContent today name lines).take 1 = ["<!-- Last Updated: " ++ today ++ " -->"])) := by
  refine ⟨?_, ?_, ?_⟩
  · intro today name lines h
    simp [memory_pruning_daemon_file, pruneContent, h]
  · intro today name lines h
    simp [memory_pruning_daemon_file, h]
  · intro today name lines h
    have hb := lineBudget_ge_200 name
    have hnle : ¬ (lines.length ≤ lineBudget name) := by omega
    have hprune : pruneContent today name lines =
        refreshTimestamp today (lines.take 5)
          ++ [pruneMarker ((lines.drop 5).length - (lineBudget name - 5))]
          ++ (lines.drop 5).drop ((lines.drop 5).length - (lineBudget name - 5)) := by
      simp [pruneContent, hnle]
    have h5 : (lines.take 5).length = 5 := by
      rw [List.length_take]; omega
    have hhd : (refreshTimestamp today (lines.take 5)).length = 5 := by
      rw [refreshTimestamp_length, h5]
    have htake5 : (pruneContent today name lines).take 5
        = refreshTimestamp today (lines.take 5) := by
      rw [hprune, List.append_assoc]
      exact List.take_left' hhd
    refine ⟨?_, ?_, ?_⟩
    · rw [hprune]
      simp only [List.length_append, List.length_drop, hhd, List.length_cons,
        List.length_nil]
      omega
    · rw [htake5, refreshTimestamp_drop_one]
    · have h1 : (pruneContent today name lines).take 1
          = (refreshTimestamp today (lines.take 5)).take 1 := by
        rw [← htake5]
        simp [List.take_take]
      cases lines with
      | nil => simp at h
      | cons l0 rest =>
        by_cases hts : isTimestampLine l0
        · right
          rw [h1]
          simp [refreshTimestamp, hts]
        · left
          rw [h1]
          simp [refreshTimestamp, hts]

/-- C7 witness: the three pruning clauses at concrete files — a
compliant file unchanged, an operational file unchanged, an oversized
file pruned within budget with its header preserved. -/
theorem forge_memory_pruning_budgets_witness :
    memory_pruning_daemon_file "2026-02-03" "overview.md" (List.replicate 300 "line")
      = List.replicate 300 "line" ∧
    memory_pruning_daemon_file "2026-02-03" "index.md" (List.replicate 600 "line")
      = List.replicate 600 "line" ∧
    ((pruneContent "2026-02-03" "findings.md" (List.replicate 501 "line")).length
        ≤ lineBudget "findings.md" + 10 ∧
      ((pruneContent "2026-02-03" "findings.md" (List.replicate 501 "line")).take 5).drop 1
        = ((List.replicate 501 "line").take 5).drop 1 ∧
      ((pruneContent "2026-02-03" "findings.md" (List.replicate 501 "line")).take 1
          = (List.replicate 501 "line").take 1 ∨
        (pruneContent "2026-02-03" "findings.md" (List.replicate 501 "line")).take 1
          = ["<!-- Last Updated: " ++ "2026-02-03" ++ " -->"])) :=
  ⟨forge_memory_pruning_budgets.1 "2026-02-03" "overview.md" (List.replicate 300 "line")
      (by decide),
    forge_memory_pruning_budgets.2.1 "2026-02-03" "index.md" (List.replicate 600 "line")
      (by decide),
    forge_memory_pruning_budgets.2.2 "2026-02-03" "findings.md" (List.replicate 501 "line")
      (by decide)⟩

/-- C8: a TaskCompleted event with the stored sessionId appends one
CommandRecord to the history, a different sessionId replaces the
history with a single-element list; the two-then-new-session scenario
yields histories analyze, implement and then length 1. -/
theorem forge_chain_state_append_reset :
    (∀ (st : ChainState) (e : TaskCompletedEvent), st.sessionId = e.sessionId →
      command_chain_context (some st) e = ⟨st.sessionId, st.commandHistory ++ [mkRecord e]⟩) ∧
    (∀ (st : ChainState) (e : TaskCompletedEvent), st.sessionId ≠ e.sessionId →
      command_chain_context (some st) e = ⟨e.sessionId, [mkRecord e]⟩) ∧
    runChain none [⟨"/analyze p", "s1", []⟩, ⟨"/implement f", "s1", []⟩]
      = some ⟨"s1", [⟨"analyze", [], []⟩, ⟨"implement", [], []⟩]⟩ ∧
    (runChain none [⟨"/analyze p", "s1", []⟩, ⟨"/implement f", "s1", []⟩,
        ⟨"/test y", "s2", []⟩]).map (fun st => (st.sessionId, st.commandHistory.length))
      = some ("s2", 1) := by
  refine ⟨?_, ?_, by decide, by decide⟩
  · intro st e h
    simp [command_chain_context, h]
  · intro st e h
    simp [command_chain_context, h]

/-- C8 witness: the append and reset clauses at a concrete stored state
and concrete follow-up events. -/
theorem forge_chain_state_append_reset_witness :
    command_chain_context (some ⟨"s1", [⟨"analyze", [], []⟩]⟩) ⟨"/implement f", "s1", []⟩
      = ⟨"s1", [⟨"analyze", [], []⟩] ++ [mkRecord ⟨"/implement f", "s1", []⟩]⟩ ∧
    command_chain_context (some ⟨"s1", [⟨"analyze", [], []⟩]⟩) ⟨"/test y", "s2", []⟩
      = ⟨"s2", [mkRecord ⟨"/test y", "s2", []⟩]⟩ :=
  ⟨forge_chain_state_append_reset.1 ⟨"s1", [⟨"analyze", [], []⟩]⟩ ⟨"/implement f", "s1", []⟩
      (by decide),
    forge_chain_state_append_reset.2.1 ⟨"s1", [⟨"analyze", [], []⟩]⟩ ⟨"/test y", "s2", []⟩
      (by decide)⟩

/-- C9: the PII redactor never denies; it warns naming every detected
category exactly when at least one pattern matches and is silent
otherwise; a prompt of private and loopback IPs is silent, and a prompt
with an email address warns mentioning email. -/
theorem forge_pii_redactor_warn_only :
    (∀ (prompt r : String), pii_redactor prompt ≠ .deny r) ∧
    (∀ prompt : String, pii_redactor prompt = .allow ↔ piiCategories prompt = []) ∧
    (∀ (prompt cat : String), cat ∈ piiCategories prompt →
      pii_redactor prompt = .warn (piiWarnText (piiCategories prompt)) ∧
        strMentions (piiWarnText (piiCategories prompt)) cat) ∧
    pii_redactor "Connect to 192.168.1.1 or 10.0.0.1 or 127.0.0.1 for testing." = .allow ∧
    pii_redactor "Send the report to admin@example.com please." = .warn (piiWarnText ["email"]) ∧
    strMentions (piiWarnText ["email"]) "email" := by
  refine ⟨?_, ?_, ?_, by decide, by decide,
    ⟨"PII Detection Warning: detected ", "", by decide⟩⟩
  · intro prompt r
    cases h : piiCategories prompt <;> simp [pii_redactor, h]
  · intro prompt
    cases h : piiCategories prompt <;> simp [pii_redactor, h]
  · intro prompt cat hmem
    cases h : piiCategories prompt with
    | nil => rw [h] at hmem; cases hmem
    | cons c rest =>
      refine ⟨by simp [pii_redactor, h], ?_⟩
      exact strMentions_append_left "PII Detection Warning: detected "
        (joinCats_mentions (h ▸ hmem))

/-- C9 witness: the warning clause at the concrete email prompt,
mentioning the email category. -/
theorem forge_pii_redactor_warn_only_witness :
    pii_redactor "Send the report to admin@example.com please."
      = .warn (piiWarnText (piiCategories "Send the report to admin@example.com please.")) ∧
    strMentions
      (piiWarnText (piiCategories "Send the report to admin@example.com please.")) "email" :=
  forge_pii_redactor_warn_only.2.2.1 "Send the report to admin@example.com please." "email"
    (by decide)

end Forge
